import Mathlib

/-!
Verification of the schema-builder engine: a shallow embedding of the
recursive schema-tree editing model (`src/lib/utils/schema-utils.ts`,
`src/lib/constants/validation-rules.ts`, and the tree-editing callbacks of
`src/components/schema-builder.tsx`), together with theorems checking the
specification's claims about it.

Modelling conventions:
* TypeScript optional attributes (`properties?`, `item_schema?`, `value?`,
  `selectedTypeToAdd?`, `isExpanded?`) become `Option`s; `undefined` is `none`.
* Dot-joined path strings are modelled by their list of segments: the code
  splits a path on `.` immediately on entry and every recursive call
  re-joins and re-splits, which is the identity on the segment list for
  dot-free segments (field ids are UUID-shaped and the literal path token
  `item_schema` has no dot).
* JavaScript objects built by the export transform become ordered
  association lists with upsert assignment (`jsObjSet`), matching insertion
  order and in-place overwrite of an existing key.
* `Math.random()`-based randomness in `generateUUID` is modelled by an
  explicit stream `rand : Nat → Nat` of draws (each used modulo 16, the
  image of `(Math.random() * 16) | 0`).
* JS truthiness tests on the optional attributes (`field.properties`,
  `field.item_schema`) are `Option.isSome` tests: an empty array is truthy
  in JS, so `some []` passes the `field.properties` test.
-/

namespace SchemaBuilder

/-- The `DataType` union of `src/lib/types/schema`:
`"string" | "number" | "boolean" | "array" | "object"`. -/
inductive DataType
  | string
  | number
  | boolean
  | array
  | object
deriving DecidableEq, Repr

/-- The input kind of a validation-rule config entry
(`type: "text" | "number" | "boolean"` in `validation-rules.ts`). -/
inductive RuleKind
  | text
  | number
  | boolean
deriving DecidableEq, Repr

/-- A validation-rule descriptor from the static catalog
(`ValidationRuleConfig`): name, input kind, UI label, optional placeholder. -/
structure ValidationRuleConfig where
  name : String
  type : RuleKind
  label : String
  placeholder : Option String
deriving DecidableEq, Repr

/-- The value stored in a validation rule: `string | number | boolean`.
JS numbers are modelled as integers; no claim involves value arithmetic. -/
inductive RuleValue
  | str (s : String)
  | num (n : Int)
  | bool (b : Bool)
deriving DecidableEq, Repr

/-- One validation rule of a field: `{ name, enabled, value? }`. -/
structure ValidationRule where
  name : String
  enabled : Bool
  value : Option RuleValue
deriving DecidableEq, Repr

/-- The recursive `SchemaField` entity of `src/lib/types/schema`:
`{ id, display_name, data_type, validation_rules, properties?, item_schema?,
selectedTypeToAdd?, isExpanded? }`. -/
inductive SchemaField where
  | mk (id : String) (display_name : String) (data_type : DataType)
       (validation_rules : List ValidationRule)
       (properties : Option (List SchemaField))
       (item_schema : Option SchemaField)
       (selectedTypeToAdd : Option DataType)
       (isExpanded : Option Bool) : SchemaField

/-- Attribute accessor for `SchemaField.id`. -/
def SchemaField.id : SchemaField → String
  | .mk i _ _ _ _ _ _ _ => i

/-- Attribute accessor for `SchemaField.display_name`. -/
def SchemaField.display_name : SchemaField → String
  | .mk _ dn _ _ _ _ _ _ => dn

/-- Attribute accessor for `SchemaField.data_type`. -/
def SchemaField.data_type : SchemaField → DataType
  | .mk _ _ dt _ _ _ _ _ => dt

/-- Attribute accessor for `SchemaField.validation_rules`. -/
def SchemaField.validation_rules : SchemaField → List ValidationRule
  | .mk _ _ _ vr _ _ _ _ => vr

/-- Attribute accessor for `SchemaField.properties`. -/
def SchemaField.properties : SchemaField → Option (List SchemaField)
  | .mk _ _ _ _ p _ _ _ => p

/-- Attribute accessor for `SchemaField.item_schema`. -/
def SchemaField.item_schema : SchemaField → Option SchemaField
  | .mk _ _ _ _ _ s _ _ => s

/-- Attribute accessor for `SchemaField.selectedTypeToAdd`. -/
def SchemaField.selectedTypeToAdd : SchemaField → Option DataType
  | .mk _ _ _ _ _ _ sel _ => sel

/-- Attribute accessor for `SchemaField.isExpanded`. -/
def SchemaField.isExpanded : SchemaField → Option Bool
  | .mk _ _ _ _ _ _ _ e => e

/-- The static catalog `VALIDATION_RULES_BY_TYPE` of
`src/lib/constants/validation-rules.ts`, transcribed verbatim. -/
def VALIDATION_RULES_BY_TYPE : DataType → List ValidationRuleConfig
  | .string =>
    [ ⟨"required", .boolean, "Required", none⟩,
      ⟨"min_length", .number, "Minimum Length", some "0"⟩,
      ⟨"max_length", .number, "Maximum Length", some "100"⟩,
      ⟨"pattern", .text, "Regex Pattern", some "^[a-zA-Z]+$"⟩,
      ⟨"has_symbols", .boolean, "Must Have Symbols", none⟩,
      ⟨"has_numbers", .boolean, "Must Have Numbers", none⟩,
      ⟨"has_uppercase", .boolean, "Must Have Uppercase", none⟩,
      ⟨"has_lowercase", .boolean, "Must Have Lowercase", none⟩ ]
  | .number =>
    [ ⟨"required", .boolean, "Required", none⟩,
      ⟨"min", .number, "Minimum Value", some "0"⟩,
      ⟨"max", .number, "Maximum Value", some "100"⟩,
      ⟨"integer_only", .boolean, "Integer Only", none⟩,
      ⟨"positive_only", .boolean, "Positive Only", none⟩ ]
  | .boolean =>
    [ ⟨"required", .boolean, "Required", none⟩,
      ⟨"must_be_true", .boolean, "Must Be True", none⟩ ]
  | .array =>
    [ ⟨"required", .boolean, "Required", none⟩,
      ⟨"min_items", .number, "Minimum Items", some "0"⟩,
      ⟨"max_items", .number, "Maximum Items", some "10"⟩,
      ⟨"unique_items", .boolean, "Unique Items Only", none⟩ ]
  | .object =>
    [ ⟨"required", .boolean, "Required", none⟩ ]

/-- Default stored value at creation time, from `createSchemaField`:
`rule.type === "boolean" ? false : rule.type === "number" ? 0 : ""`. -/
def defaultRuleValue : RuleKind → RuleValue
  | .boolean => .bool false
  | .number => .num 0
  | .text => .str ""

/-- The freshly initialized rule list of `createSchemaField`: one disabled
entry per catalog descriptor for the type, with the default value. -/
def defaultValidationRules (type : DataType) : List ValidationRule :=
  (VALIDATION_RULES_BY_TYPE type).map (fun rule =>
    ⟨rule.name, false, some (defaultRuleValue rule.type)⟩)

/-- `createSchemaField` of `schema-utils.ts`; the id produced by
`generateUUID()` is passed in as `uid` (see `generateUUID` below for the
generator itself).  Note `item_schema: type === "array" ? undefined :
undefined` in the source is `undefined` either way. -/
def createSchemaField (uid : String) (type : DataType) : SchemaField :=
  .mk uid "" type (defaultValidationRules type)
    (if type = DataType.object then some [] else none)
    none
    (if type = DataType.object ∨ type = DataType.array then some DataType.string else none)
    (some true)

/-- Hexadecimal digit character, as produced by `v.toString(16)` for
`v < 16` (lower-case). -/
def hexDigit (v : Nat) : Char :=
  "0123456789abcdef".toList.getD v '0'

/-- The template string of the `generateUUID` fallback. -/
def uuidTemplate : String := "xxxxxxxx-xxxx-4xxx-yxxx-xxxxxxxxxxxx"

/-- The `generateUUID` fallback of `schema-utils.ts`: each `x`/`y` of the
template consumes one random draw `r = (Math.random()*16)|0` (modelled as
`rand k % 16` for the k-th consumed draw) and becomes `r.toString(16)` for
`x`, or `((r & 0x3) | 0x8).toString(16)` (that is, `r % 4 + 8`) for `y`;
other characters are copied.  The generator never consults any forest. -/
def generateUUID (rand : Nat → Nat) : String :=
  (uuidTemplate.toList.foldl
    (fun acc c =>
      if c = 'x' then
        (acc.1.push (hexDigit (rand acc.2 % 16)), acc.2 + 1)
      else if c = 'y' then
        (acc.1.push (hexDigit (rand acc.2 % 16 % 4 + 8)), acc.2 + 1)
      else
        (acc.1.push c, acc.2))
    ("", 0)).1

mutual
/-- `updateNestedField` of `schema-utils.ts` over the segment list of the
path: maps over the list, transforming each field whose id matches the
first segment via `updateOne`'s per-field logic. -/
def updateNestedField (fields : List SchemaField) (pathParts : List String)
    (updater : SchemaField → SchemaField) : List SchemaField :=
  match fields with
  | [] => []
  | f :: rest => updateOne f pathParts updater :: updateNestedField rest pathParts updater

/-- The body of `updateNestedField`'s `fields.map` callback for one field:
on an id match, a one-segment path applies the updater here; with more
segments, a field with `properties` recurses into them with the rest of the
path, otherwise a field with an `item_schema` applies the updater directly
to that item schema (the remaining segments are not consulted), and a field
with neither is returned unchanged.  An empty segment list cannot arise
from `split(".")` and returns the field unchanged. -/
def updateOne (field : SchemaField) (pathParts : List String)
    (updater : SchemaField → SchemaField) : SchemaField :=
  match field, pathParts with
  | f, [] => f
  | .mk i dn dt vr props item sel exp, fieldId :: remaining =>
    if i = fieldId then
      match remaining, props, item with
      | [], _, _ => updater (.mk i dn dt vr props item sel exp)
      | _ :: _, some ps, _ =>
          .mk i dn dt vr (some (updateNestedField ps remaining updater)) item sel exp
      | _ :: _, none, some inner => .mk i dn dt vr none (some (updater inner)) sel exp
      | _ :: _, none, none => .mk i dn dt vr none none sel exp
    else .mk i dn dt vr props item sel exp
end

/-- The updater closure of `addField` in `schema-builder.tsx`: append the
new field to `properties` when the located parent is an `object`
(`[...(field.properties || []), newField]`); any other parent type is
returned unchanged. -/
def addFieldUpdater (newField : SchemaField) (field : SchemaField) : SchemaField :=
  match field with
  | .mk i dn dt vr props item sel exp =>
    if dt = DataType.object then
      .mk i dn dt vr (some (props.getD [] ++ [newField])) item sel exp
    else
      .mk i dn dt vr props item sel exp

/-- `addField` of `schema-builder.tsx`: with no parent path, append to the
top-level list; otherwise update the located parent via `addFieldUpdater`. -/
def addField (schema : List SchemaField) (parentPath : Option (List String))
    (newField : SchemaField) : List SchemaField :=
  match parentPath with
  | none => schema ++ [newField]
  | some path => updateNestedField schema path (addFieldUpdater newField)

/-- The updater closure of `updateValidationRule`: replace the matching
rule (by name) with `{ ...rule, enabled, value }`; other rules pass through
unchanged.  The literal overwrites `value` even when the argument was
`undefined`. -/
def updateValidationRuleUpdater (ruleName : String) (enabled : Bool)
    (value : Option RuleValue) (field : SchemaField) : SchemaField :=
  match field with
  | .mk i dn dt vr props item sel exp =>
    .mk i dn dt
      (vr.map (fun rule => if rule.name = ruleName then ⟨rule.name, enabled, value⟩ else rule))
      props item sel exp

/-- `updateValidationRule` of `schema-builder.tsx`. -/
def updateValidationRule (schema : List SchemaField) (path : List String)
    (ruleName : String) (enabled : Bool) (value : Option RuleValue) : List SchemaField :=
  updateNestedField schema path (updateValidationRuleUpdater ruleName enabled value)

/-- JS falsiness of an optional rule value (`undefined`, `false`, `0` and
`""` are falsy), as tested by `defaultValue || 0` and `defaultValue || ""`
in the rule switch handler. -/
def isFalsyValue : Option RuleValue → Bool
  | none => true
  | some (.bool b) => !b
  | some (.num n) => n == 0
  | some (.str s) => s == ""

/-- The `defaultValue` computation of the rule `Switch` handler in
`renderValidationRules`: `let defaultValue = rule.value; if (enabled &&
type === "boolean") defaultValue = true; else if (enabled && type ===
"number") defaultValue = defaultValue || 0; else if (enabled && type ===
"text") defaultValue = defaultValue || ""`. -/
def switchDefaultValue (kind : RuleKind) (enabled : Bool)
    (prior : Option RuleValue) : Option RuleValue :=
  if enabled ∧ kind = RuleKind.boolean then some (.bool true)
  else if enabled ∧ kind = RuleKind.number then
    (if isFalsyValue prior then some (.num 0) else prior)
  else if enabled ∧ kind = RuleKind.text then
    (if isFalsyValue prior then some (.str "") else prior)
  else prior

/-- The full effect of flipping a rule's `Switch` on a field: look up the
catalog descriptor for the field's current type and the field's own rule
entry by name (the UI renders a switch only when both exist), compute the
default value, and apply `updateValidationRule`'s per-field updater. -/
def toggleRule (field : SchemaField) (ruleName : String) (enabled : Bool) : SchemaField :=
  match (VALIDATION_RULES_BY_TYPE field.data_type).find? (fun rc => rc.name == ruleName),
        field.validation_rules.find? (fun r => r.name == ruleName) with
  | some ruleConfig, some rule =>
      updateValidationRuleUpdater ruleName enabled
        (switchDefaultValue ruleConfig.type enabled rule.value) field
  | _, _ => field

/-- The updater closure of `removeField`'s multi-segment branch:
`{ ...field, properties: field.properties?.filter(p => p.id !== fieldId) || [] }`.
Note it installs `properties: []` even on a field that had none. -/
def removeFieldUpdater (fieldId : String) (field : SchemaField) : SchemaField :=
  match field with
  | .mk i dn dt vr props item sel exp =>
    .mk i dn dt vr (some ((props.getD []).filter (fun prop => !(prop.id == fieldId))))
      item sel exp

/-- `removeField` of `schema-builder.tsx`: a one-segment path filters the
id out of the top-level list; a longer path updates the parent (all but the
last segment) with `removeFieldUpdater` on the last segment.  (`split(".")`
never yields an empty list, so the `[]` arm is unreachable.) -/
def removeField (fields : List SchemaField) (pathParts : List String) : List SchemaField :=
  match pathParts with
  | [] => fields
  | [fieldId] => fields.filter (fun field => !(field.id == fieldId))
  | x :: y :: rest =>
    updateNestedField fields (x :: (y :: rest).dropLast)
      (removeFieldUpdater ((y :: rest).getLastD y))

/-- The updater closure of `setArrayItemSchema`:
`{ ...field, item_schema: newItemSchema }` (unconditionally). -/
def setArrayItemSchemaUpdater (newItemSchema : SchemaField) (field : SchemaField) : SchemaField :=
  match field with
  | .mk i dn dt vr props _ sel exp => .mk i dn dt vr props (some newItemSchema) sel exp

/-- `setArrayItemSchema` of `schema-builder.tsx`; the fresh field's UUID is
passed in as `uid`. -/
def setArrayItemSchema (schema : List SchemaField) (path : List String)
    (uid : String) (itemType : DataType) : List SchemaField :=
  updateNestedField schema path (setArrayItemSchemaUpdater (createSchemaField uid itemType))

/-- The type-change `updates` object of `renderField`'s data-type `Select`
handler, merged over the field: `data_type: value`, fresh
`validation_rules` from `createSchemaField(value)`, `properties` reset to
`[]` for `object` else `undefined`, `item_schema: undefined`,
`selectedTypeToAdd: "string"` for containers else `undefined`; `id`,
`display_name` and `isExpanded` survive the spread. -/
def changeTypeUpdater (value : DataType) (field : SchemaField) : SchemaField :=
  match field with
  | .mk i dn _ _ _ _ _ exp =>
    .mk i dn value (defaultValidationRules value)
      (if value = DataType.object then some [] else none)
      none
      (if value = DataType.object ∨ value = DataType.array then some DataType.string else none)
      exp

/-- Type change dispatched through `updateField` at a path. -/
def changeType (schema : List SchemaField) (path : List String)
    (value : DataType) : List SchemaField :=
  updateNestedField schema path (changeTypeUpdater value)

/-- `updateField(path, { display_name })` as a per-field updater. -/
def setDisplayNameUpdater (newName : String) (field : SchemaField) : SchemaField :=
  match field with
  | .mk i _ dt vr props item sel exp => .mk i newName dt vr props item sel exp

/-- `updateField(path, { isExpanded })` as a per-field updater. -/
def setExpandedUpdater (open2 : Bool) (field : SchemaField) : SchemaField :=
  match field with
  | .mk i dn dt vr props item sel _ => .mk i dn dt vr props item sel (some open2)

/-- `updateField(path, { selectedTypeToAdd })` as a per-field updater. -/
def setSelectedTypeUpdater (value : DataType) (field : SchemaField) : SchemaField :=
  match field with
  | .mk i dn dt vr props item _ exp => .mk i dn dt vr props item (some value) exp

/-- The engine's mutation commands as dispatched by the hosting UI:
insertion (top-level or under a parent path), the enumerated `updateField`
commands (display name, expansion, selected type to add), removal, rule
update, type change, and installing an array's item schema. -/
inductive EngineOp where
  | insertTop (t : DataType) (uid : String)
  | insertUnder (parentPath : List String) (t : DataType) (uid : String)
  | rename (path : List String) (newName : String)
  | toggleExpanded (path : List String) (b : Bool)
  | selectTypeToAdd (path : List String) (t : DataType)
  | removeAt (path : List String)
  | setRule (path : List String) (ruleName : String) (enabled : Bool) (value : Option RuleValue)
  | retype (path : List String) (t : DataType)
  | setItemSchema (path : List String) (itemType : DataType) (uid : String)

/-- One engine step: dispatch an `EngineOp` to the corresponding operation. -/
def applyOp (schema : List SchemaField) : EngineOp → List SchemaField
  | .insertTop t uid => addField schema none (createSchemaField uid t)
  | .insertUnder p t uid => addField schema (some p) (createSchemaField uid t)
  | .rename p s => updateNestedField schema p (setDisplayNameUpdater s)
  | .toggleExpanded p b => updateNestedField schema p (setExpandedUpdater b)
  | .selectTypeToAdd p t => updateNestedField schema p (setSelectedTypeUpdater t)
  | .removeAt p => removeField schema p
  | .setRule p nm en v => updateValidationRule schema p nm en v
  | .retype p t => changeType schema p t
  | .setItemSchema p t uid => setArrayItemSchema schema p uid t

/-- A forest reachable from the empty forest by a sequence of engine
operations. -/
def run (ops : List EngineOp) : List SchemaField :=
  ops.foldl applyOp []

/-- A JSON-compatible value, the codomain of the export transform.
Objects are ordered key/value lists (JS object insertion order). -/
inductive Json where
  | str (s : String)
  | num (n : Int)
  | bool (b : Bool)
  | null
  | arr (elems : List Json)
  | obj (members : List (String × Json))

/-- The JSON string for a `DataType`. -/
def dataTypeName : DataType → String
  | .string => "string"
  | .number => "number"
  | .boolean => "boolean"
  | .array => "array"
  | .object => "object"

/-- Encoding of an exported rule's stored value.  An absent value (never
produced for an enabled rule by the UI handlers, but representable) is
encoded as `null` in place of JS `undefined`; only key presence matters to
the claims. -/
def ruleValueJson : Option RuleValue → Json
  | some (.str s) => .str s
  | some (.num n) => .num n
  | some (.bool b) => .bool b
  | none => .null

/-- JS object assignment `acc[key] = v` on an ordered association list:
overwrite in place when the key exists, else append. -/
def jsObjSet : List (String × Json) → String → Json → List (String × Json)
  | [], key, v => [(key, v)]
  | (k, w) :: rest, key, v =>
    if k = key then (k, v) :: rest else (k, w) :: jsObjSet rest key v

/-- The `validation_rules` mapping of `cleanSchemaForExport`:
`filter(rule => rule.enabled).reduce((acc, rule) => { acc[rule.name] =
rule.value; return acc }, {})`. -/
def exportRules (rules : List ValidationRule) : List (String × Json) :=
  (rules.filter (fun rule => rule.enabled)).foldl
    (fun acc rule => jsObjSet acc rule.name (ruleValueJson rule.value)) []

mutual
/-- One element of `cleanSchemaForExport`'s map: the cleaned object with
`display_name`, `data_type`, the enabled-rules mapping, and the
conditional children entries — `properties` when `data_type === "object"
&& field.properties`, else `item_schema` when `data_type === "array" &&
field.item_schema`, else nothing (the two `if` branches are exclusive by
data type, so the `else if` chain equals this type dispatch). -/
def cleanOne : SchemaField → Json
  | .mk _ dn dt vr props item _ _ =>
    .obj ([("display_name", .str dn), ("data_type", .str (dataTypeName dt)),
           ("validation_rules", .obj (exportRules vr))]
      ++ (if dt = DataType.object then cleanPropsEntries props
          else if dt = DataType.array then cleanItemEntries item
          else []))

/-- The `properties` entry of a cleaned object, when present. -/
def cleanPropsEntries : Option (List SchemaField) → List (String × Json)
  | none => []
  | some ps => [("properties", .arr (cleanSchemaForExport ps))]

/-- The `item_schema` entry of a cleaned array object, when present. -/
def cleanItemEntries : Option SchemaField → List (String × Json)
  | none => []
  | some s => [("item_schema", cleanOne s)]

/-- `cleanSchemaForExport` of `schema-utils.ts`: map `cleanOne` over the
forest. -/
def cleanSchemaForExport : List SchemaField → List Json
  | [] => []
  | f :: rest => cleanOne f :: cleanSchemaForExport rest
end

/-- First-match lookup in an ordered JS-object association list. -/
def objLookup (kvs : List (String × Json)) (key : String) : Option Json :=
  (kvs.find? (fun kv => kv.1 == key)).map (fun kv => kv.2)

/-- Lookup of a key in a JSON value when it is an object. -/
def jsonObjLookup : Json → String → Option Json
  | .obj kvs, key => objLookup kvs key
  | _, _ => none

/-- Key presence in an ordered JS-object association list. -/
def objHasKey (kvs : List (String × Json)) (key : String) : Bool :=
  kvs.any (fun kv => kv.1 == key)

mutual
/-- Shape check for one exported field node: an object whose keys all come
from `display_name`, `data_type`, `validation_rules`, `properties` (an
array of nodes of the same shape) and `item_schema` (a node of the same
shape) — in particular the UI-only keys `id`, `isExpanded` and
`selectedTypeToAdd` appear nowhere, at any depth. -/
def exportNodeOk : Json → Bool
  | .obj kvs => exportEntriesOk kvs
  | _ => false

/-- Entry-wise part of `exportNodeOk`. -/
def exportEntriesOk : List (String × Json) → Bool
  | [] => true
  | (k, v) :: rest =>
    (if k == "display_name" || k == "data_type" || k == "validation_rules" then true
     else if k == "properties" then exportArrOk v
     else if k == "item_schema" then exportNodeOk v
     else false)
    && exportEntriesOk rest

/-- A `properties` value: an array of export nodes. -/
def exportArrOk : Json → Bool
  | .arr xs => exportListOk xs
  | _ => false

/-- List-wise part of `exportArrOk`. -/
def exportListOk : List Json → Bool
  | [] => true
  | x :: xs => exportNodeOk x && exportListOk xs
end

mutual
/-- Whether a field with the given id occurs anywhere in a field's tree
(the field itself, its `properties` subtrees, or its `item_schema`
subtree). -/
def containsId : SchemaField → String → Bool
  | .mk i _ _ _ props item _ _, target =>
    (i == target) || optForestContainsId props target || optFieldContainsId item target

/-- `containsId` through an optional child list. -/
def optForestContainsId : Option (List SchemaField) → String → Bool
  | none, _ => false
  | some ps, target => forestContainsId ps target

/-- `containsId` through an optional item schema. -/
def optFieldContainsId : Option SchemaField → String → Bool
  | none, _ => false
  | some f, target => containsId f target

/-- Whether a field with the given id occurs anywhere in a forest. -/
def forestContainsId : List SchemaField → String → Bool
  | [], _ => false
  | f :: rest, target => containsId f target || forestContainsId rest target
end

mutual
/-- All ids occurring in a field's tree, in preorder. -/
def fieldIds : SchemaField → List String
  | .mk i _ _ _ props item _ _ => i :: (optForestIds props ++ optFieldIds item)

/-- `fieldIds` through an optional child list. -/
def optForestIds : Option (List SchemaField) → List String
  | none => []
  | some ps => forestIds ps

/-- `fieldIds` through an optional item schema. -/
def optFieldIds : Option SchemaField → List String
  | none => []
  | some f => fieldIds f

/-- All ids occurring anywhere in a forest, in preorder. -/
def forestIds : List SchemaField → List String
  | [] => []
  | f :: rest => fieldIds f ++ forestIds rest
end

/-- The rule-completeness condition for one field considered alone: its
rule names are exactly (as an ordered list) the catalog's names for its
current data type. -/
def ruleNamesOk (f : SchemaField) : Bool :=
  f.validation_rules.map (fun r => r.name)
    == (VALIDATION_RULES_BY_TYPE f.data_type).map (fun rc => rc.name)

mutual
/-- Rule completeness of every field in a field's tree. -/
def fieldInv : SchemaField → Bool
  | .mk i dn dt vr props item sel exp =>
    ruleNamesOk (.mk i dn dt vr props item sel exp)
    && optForestInv props && optFieldInv item

/-- `fieldInv` through an optional child list. -/
def optForestInv : Option (List SchemaField) → Bool
  | none => true
  | some ps => forestInv ps

/-- `fieldInv` through an optional item schema. -/
def optFieldInv : Option SchemaField → Bool
  | none => true
  | some f => fieldInv f

/-- Rule completeness of every field in a forest. -/
def forestInv : List SchemaField → Bool
  | [] => true
  | f :: rest => fieldInv f && forestInv rest
end

/-- Occurrence of a field node within a field's tree: the node itself, a
node of a `properties` subtree, or a node of the `item_schema` subtree. -/
inductive OccursIn : SchemaField → SchemaField → Prop where
  | self (f : SchemaField) : OccursIn f f
  | inProps (f g h2 : SchemaField) (ps : List SchemaField)
      (hp : h2.properties = some ps) (hg : g ∈ ps) (ho : OccursIn f g) : OccursIn f h2
  | inItem (f s h2 : SchemaField)
      (hi : h2.item_schema = some s) (ho : OccursIn f s) : OccursIn f h2

/-- Occurrence of a field node anywhere in a forest. -/
def MemForest (f : SchemaField) (fields : List SchemaField) : Prop :=
  ∃ g ∈ fields, OccursIn f g

/-- Record-update helper: replace the `properties` attribute. -/
def SchemaField.withProperties : SchemaField → Option (List SchemaField) → SchemaField
  | .mk i dn dt vr _ item sel exp, p => .mk i dn dt vr p item sel exp

/-- Apply an updater to a field's `item_schema` when present (the shortcut
`updateNestedField` takes for a properties-less field on a multi-segment
path). -/
def applyToItem (u : SchemaField → SchemaField) : SchemaField → SchemaField
  | .mk i dn dt vr props item sel exp =>
    match item with
    | some s => .mk i dn dt vr props (some (u s)) sel exp
    | none => .mk i dn dt vr props none sel exp

/-- The value the rule `Switch` handler installs on enabling, by catalog
kind: `true` for boolean, `0` for number, `""` for text. -/
def enableDefault : RuleKind → RuleValue
  | .boolean => .bool true
  | .number => .num 0
  | .text => .str ""

/-- A string field whose `required` rule has an absent stored value, to
exercise the rule-switch defaulting. -/
def switchProbeField : SchemaField :=
  .mk "f3" "" DataType.string [⟨"required", false, none⟩] none none none (some true)

/-- Example leaf: a string field `q`. -/
def exQ : SchemaField :=
  .mk "q" "" DataType.string (defaultValidationRules DataType.string)
    none none none (some true)

/-- Example object `p` holding `q` in its properties. -/
def exP : SchemaField :=
  .mk "p" "" DataType.object (defaultValidationRules DataType.object)
    (some [exQ]) none (some DataType.string) (some true)

/-- Example object `o` holding `p`; the item schema of `a`. -/
def exO : SchemaField :=
  .mk "o" "" DataType.object (defaultValidationRules DataType.object)
    (some [exP]) none (some DataType.string) (some true)

/-- Example top-level array `a` whose item schema is `o`. -/
def exA : SchemaField :=
  .mk "a" "" DataType.array (defaultValidationRules DataType.array)
    none (some exO) (some DataType.string) (some true)

/-- Example forest: the single array `a`. -/
def exForest : List SchemaField := [exA]

/-- An empty object `w`, used as an item schema. -/
def wormObject : SchemaField :=
  .mk "w" "" DataType.object (defaultValidationRules DataType.object)
    (some []) none (some DataType.string) (some true)

/-- A top-level array whose item schema is the empty object `w`. -/
def wormArray : SchemaField :=
  .mk "arr" "" DataType.array (defaultValidationRules DataType.array)
    none (some wormObject) (some DataType.string) (some true)

/-- A field carrying the exact id the zero-stream UUID generator produces. -/
def collidingField : SchemaField :=
  .mk "00000000-0000-4000-8000-000000000000" "Existing" DataType.string
    (defaultValidationRules DataType.string) none none none (some true)

/-- A string field named Email with `required` and `pattern` enabled. -/
def emailField : SchemaField :=
  .mk "e1" "Email" DataType.string
    [ ⟨"required", true, some (.bool true)⟩,
      ⟨"min_length", false, some (.num 0)⟩,
      ⟨"max_length", false, some (.num 0)⟩,
      ⟨"pattern", true, some (.str "^[a-z]+$")⟩,
      ⟨"has_symbols", false, some (.bool false)⟩,
      ⟨"has_numbers", false, some (.bool false)⟩,
      ⟨"has_uppercase", false, some (.bool false)⟩,
      ⟨"has_lowercase", false, some (.bool false)⟩ ]
    none none none (some true)

/-- On a one-segment path, `updateOne` applies the updater exactly when
the id matches. -/
theorem updateOne_single_eq (f : SchemaField) (x : String)
    (u : SchemaField → SchemaField) :
    updateOne f [x] u = if f.id = x then u f else f := by
  cases f with
  | mk i dn dt vr props item sel exp =>
    rw [updateOne.eq_2]
    simp [SchemaField.id]

/-- A field whose id misses the first segment passes through `updateOne`
unchanged. -/
theorem updateOne_nomatch_eq (f : SchemaField) (x : String) (rest : List String)
    (u : SchemaField → SchemaField) (hid : ¬ f.id = x) :
    updateOne f (x :: rest) u = f := by
  cases f with
  | mk i dn dt vr props item sel exp =>
    simp only [SchemaField.id] at hid
    match rest with
    | [] => rw [updateOne.eq_2, if_neg hid]
    | r :: rs =>
      match props, item with
      | some ps, item => rw [updateOne.eq_3, if_neg hid]
      | none, some inner => rw [updateOne.eq_4, if_neg hid]
      | none, none => rw [updateOne.eq_5, if_neg hid]

/-- On a multi-segment path, a matching field without `properties` gets the
updater applied directly to its `item_schema` (if any); the remaining
segments are never consulted. -/
theorem updateOne_deep_noprops_eq (f : SchemaField) (x seg : String)
    (rest : List String) (u : SchemaField → SchemaField)
    (hnp : f.properties = none) :
    updateOne f (x :: seg :: rest) u = if f.id = x then applyToItem u f else f := by
  cases f with
  | mk i dn dt vr props item sel exp =>
    simp only [SchemaField.properties] at hnp
    subst hnp
    match item with
    | some inner =>
      rw [updateOne.eq_4]
      simp [SchemaField.id, applyToItem]
    | none =>
      rw [updateOne.eq_5]
      simp [SchemaField.id, applyToItem]

/-- `updateNestedField` on a one-segment path is a map that applies the
updater to exactly the id-matching fields. -/
theorem updateNestedField_single_map (fields : List SchemaField) (x : String)
    (u : SchemaField → SchemaField) :
    updateNestedField fields [x] u
      = fields.map (fun f => if f.id = x then u f else f) := by
  induction fields with
  | nil => rw [updateNestedField.eq_1]; rfl
  | cons f rest ih =>
    rw [updateNestedField.eq_2, ih, List.map_cons, updateOne_single_eq]

/-- When no top-level field matches the path head, `updateNestedField`
returns the forest unchanged. -/
theorem updateNestedField_nomatch (fields : List SchemaField) (x : String)
    (rest : List String) (u : SchemaField → SchemaField)
    (h : ∀ f ∈ fields, ¬ f.id = x) :
    updateNestedField fields (x :: rest) u = fields := by
  induction fields with
  | nil => rw [updateNestedField.eq_1]
  | cons f fs ih =>
    rw [updateNestedField.eq_2, updateOne_nomatch_eq f x rest u (h f (by simp)),
      ih (fun g hg => h g (by simp [hg]))]

/-- On a path of two or more segments whose head matches only fields
without `properties`, `updateNestedField` applies the updater to each
matching field's `item_schema` and ignores all remaining segments. -/
theorem updateNestedField_deep_noprops (fields : List SchemaField) (x seg : String)
    (rest : List String) (u : SchemaField → SchemaField)
    (h : ∀ f ∈ fields, f.id = x → f.properties = none) :
    updateNestedField fields (x :: seg :: rest) u
      = fields.map (fun f => if f.id = x then applyToItem u f else f) := by
  induction fields with
  | nil => rw [updateNestedField.eq_1]; rfl
  | cons f fs ih =>
    rw [updateNestedField.eq_2, List.map_cons, ih (fun g hg hgx => h g (by simp [hg]) hgx)]
    by_cases hid : f.id = x
    · rw [updateOne_deep_noprops_eq f x seg rest u (h f (by simp) hid), if_pos hid]
    · rw [updateOne_nomatch_eq f x (seg :: rest) u hid, if_neg hid]

/-- Replacing one rule by name with `{ ...rule, enabled, value }` preserves
the list of rule names. -/
theorem ruleNames_map_update (vr : List ValidationRule) (ruleName : String)
    (enabled : Bool) (value : Option RuleValue) :
    (vr.map (fun rule =>
        if rule.name = ruleName then ⟨rule.name, enabled, value⟩ else rule)).map
      (fun r => r.name)
      = vr.map (fun r => r.name) := by
  rw [List.map_map]
  refine List.map_congr_left (fun r _ => ?_)
  by_cases h : r.name = ruleName <;> simp [h]

/-- `forestInv` distributes over append. -/
theorem forestInv_append (a b : List SchemaField) :
    forestInv (a ++ b) = (forestInv a && forestInv b) := by
  induction a with
  | nil => rw [forestInv.eq_1]; simp
  | cons f fs ih => rw [List.cons_append, forestInv.eq_2, forestInv.eq_2, ih, Bool.and_assoc]

/-- `forestInv` survives filtering. -/
theorem forestInv_filter (ps : List SchemaField) (p : SchemaField → Bool)
    (h : forestInv ps = true) : forestInv (ps.filter p) = true := by
  induction ps with
  | nil => exact h
  | cons f fs ih =>
    rw [forestInv.eq_2, Bool.and_eq_true] at h
    rw [List.filter_cons]
    by_cases hp : p f = true
    · rw [if_pos hp, forestInv.eq_2, Bool.and_eq_true]
      exact ⟨h.1, ih h.2⟩
    · rw [if_neg hp]
      exact ih h.2

/-- Every member of a forest satisfying `forestInv` satisfies `fieldInv`. -/
theorem forestInv_mem (ps : List SchemaField) (g : SchemaField)
    (h : forestInv ps = true) (hg : g ∈ ps) : fieldInv g = true := by
  induction ps with
  | nil => cases hg
  | cons f fs ih =>
    rw [forestInv.eq_2, Bool.and_eq_true] at h
    rcases List.mem_cons.mp hg with rfl | hg'
    · exact h.1
    · exact ih h.2 hg'

/-- A freshly created field satisfies the rule-completeness invariant. -/
theorem fieldInv_createSchemaField (uid : String) (t : DataType) :
    fieldInv (createSchemaField uid t) = true := by
  cases t <;>
    simp [createSchemaField, fieldInv.eq_1, ruleNamesOk, SchemaField.validation_rules,
      SchemaField.data_type, defaultValidationRules, List.map_map, optForestInv,
      optFieldInv, forestInv]

mutual
/-- `updateNestedField` preserves the rule-completeness invariant whenever
the updater does. -/
theorem updateNestedField_inv (fields : List SchemaField) (pathParts : List String)
    (u : SchemaField → SchemaField)
    (hu : ∀ f, fieldInv f = true → fieldInv (u f) = true)
    (h : forestInv fields = true) :
    forestInv (updateNestedField fields pathParts u) = true := by
  match fields with
  | [] => rw [updateNestedField.eq_1]; exact h
  | f :: rest =>
    rw [updateNestedField.eq_2, forestInv.eq_2, Bool.and_eq_true]
    rw [forestInv.eq_2, Bool.and_eq_true] at h
    exact ⟨updateOne_inv f pathParts u hu h.1, updateNestedField_inv rest pathParts u hu h.2⟩

/-- `updateOne` preserves the rule-completeness invariant whenever the
updater does. -/
theorem updateOne_inv (field : SchemaField) (pathParts : List String)
    (u : SchemaField → SchemaField)
    (hu : ∀ f, fieldInv f = true → fieldInv (u f) = true)
    (h : fieldInv field = true) :
    fieldInv (updateOne field pathParts u) = true := by
  match field, pathParts with
  | f, [] => rw [updateOne.eq_1]; exact h
  | .mk i dn dt vr props item sel exp, fieldId :: remaining =>
    match remaining, props, item with
    | [], props, item =>
      rw [updateOne.eq_2]
      by_cases hid : i = fieldId
      · rw [if_pos hid]; exact hu _ h
      · rw [if_neg hid]; exact h
    | r :: rs, some ps, item =>
      rw [updateOne.eq_3]
      by_cases hid : i = fieldId
      · rw [if_pos hid]
        rw [fieldInv.eq_1, optForestInv, Bool.and_eq_true, Bool.and_eq_true] at h ⊢
        exact ⟨⟨h.1.1, updateNestedField_inv ps (r :: rs) u hu h.1.2⟩, h.2⟩
      · rw [if_neg hid]; exact h
    | r :: rs, none, some inner =>
      rw [updateOne.eq_4]
      by_cases hid : i = fieldId
      · rw [if_pos hid]
        rw [fieldInv.eq_1, optFieldInv, Bool.and_eq_true, Bool.and_eq_true] at h ⊢
        exact ⟨h.1, hu _ h.2⟩
      · rw [if_neg hid]; exact h
    | r :: rs, none, none =>
      rw [updateOne.eq_5]
      by_cases hid : i = fieldId
      · rw [if_pos hid]; exact h
      · rw [if_neg hid]; exact h
end

/-- `ruleNamesOk` on a constructed field, written out. -/
theorem ruleNamesOk_mk (i dn : String) (dt : DataType) (vr : List ValidationRule)
    (props : Option (List SchemaField)) (item : Option SchemaField)
    (sel : Option DataType) (exp : Option Bool) :
    ruleNamesOk (.mk i dn dt vr props item sel exp)
      = (vr.map (fun r => r.name) == (VALIDATION_RULES_BY_TYPE dt).map (fun rc => rc.name)) :=
  rfl

/-- Appending an invariant-satisfying field inside `addFieldUpdater`
preserves the invariant. -/
theorem addFieldUpdater_inv (nf : SchemaField) (hnf : fieldInv nf = true)
    (f : SchemaField) (h : fieldInv f = true) :
    fieldInv (addFieldUpdater nf f) = true := by
  cases f with
  | mk i dn dt vr props item sel exp =>
    rw [addFieldUpdater]
    by_cases hdt : dt = DataType.object
    · rw [if_pos hdt]
      rw [fieldInv.eq_1, Bool.and_eq_true, Bool.and_eq_true] at h ⊢
      refine ⟨⟨h.1.1, ?_⟩, h.2⟩
      rw [optForestInv, forestInv_append, Bool.and_eq_true]
      refine ⟨?_, by simp [forestInv.eq_2, forestInv.eq_1, hnf]⟩
      match props with
      | some ps => exact h.1.2
      | none => rfl
    · rw [if_neg hdt]; exact h

/-- The filtering updater of `removeField` preserves the invariant. -/
theorem removeFieldUpdater_inv (fid : String) (f : SchemaField)
    (h : fieldInv f = true) : fieldInv (removeFieldUpdater fid f) = true := by
  cases f with
  | mk i dn dt vr props item sel exp =>
    rw [removeFieldUpdater]
    rw [fieldInv.eq_1, Bool.and_eq_true, Bool.and_eq_true] at h ⊢
    refine ⟨⟨h.1.1, ?_⟩, h.2⟩
    rw [optForestInv]
    match props with
    | some ps => exact forestInv_filter ps _ h.1.2
    | none => rfl

/-- The rule-replacement updater preserves the invariant: rule names are
untouched. -/
theorem updateValidationRuleUpdater_inv (ruleName : String) (enabled : Bool)
    (value : Option RuleValue) (f : SchemaField) (h : fieldInv f = true) :
    fieldInv (updateValidationRuleUpdater ruleName enabled value f) = true := by
  cases f with
  | mk i dn dt vr props item sel exp =>
    rw [updateValidationRuleUpdater]
    rw [fieldInv.eq_1, Bool.and_eq_true, Bool.and_eq_true] at h ⊢
    refine ⟨⟨?_, h.1.2⟩, h.2⟩
    rw [ruleNamesOk_mk, ruleNames_map_update]
    exact h.1.1

/-- The type-change updater regenerates the rules from the catalog, so the
invariant holds for the result outright. -/
theorem changeTypeUpdater_inv (value : DataType) (f : SchemaField) :
    fieldInv (changeTypeUpdater value f) = true := by
  cases f with
  | mk i dn dt vr props item sel exp =>
    cases value <;>
      simp [changeTypeUpdater, fieldInv.eq_1, ruleNamesOk, SchemaField.validation_rules,
        SchemaField.data_type, defaultValidationRules, List.map_map, optForestInv,
        optFieldInv, forestInv]

/-- Installing an invariant-satisfying item schema preserves the invariant. -/
theorem setArrayItemSchemaUpdater_inv (nf : SchemaField) (hnf : fieldInv nf = true)
    (f : SchemaField) (h : fieldInv f = true) :
    fieldInv (setArrayItemSchemaUpdater nf f) = true := by
  cases f with
  | mk i dn dt vr props item sel exp =>
    rw [setArrayItemSchemaUpdater]
    rw [fieldInv.eq_1, Bool.and_eq_true, Bool.and_eq_true] at h ⊢
    exact ⟨h.1, by rw [optFieldInv]; exact hnf⟩

/-- Renaming does not touch rules or children. -/
theorem setDisplayNameUpdater_inv (s : String) (f : SchemaField)
    (h : fieldInv f = true) : fieldInv (setDisplayNameUpdater s f) = true := by
  cases f with
  | mk i dn dt vr props item sel exp => exact h

/-- Toggling expansion does not touch rules or children. -/
theorem setExpandedUpdater_inv (b : Bool) (f : SchemaField)
    (h : fieldInv f = true) : fieldInv (setExpandedUpdater b f) = true := by
  cases f with
  | mk i dn dt vr props item sel exp => exact h

/-- Changing the selected type to add does not touch rules or children. -/
theorem setSelectedTypeUpdater_inv (t : DataType) (f : SchemaField)
    (h : fieldInv f = true) : fieldInv (setSelectedTypeUpdater t f) = true := by
  cases f with
  | mk i dn dt vr props item sel exp => exact h

/-- Every engine operation preserves the rule-completeness invariant. -/
theorem forestInv_applyOp (s : List SchemaField) (op : EngineOp)
    (h : forestInv s = true) : forestInv (applyOp s op) = true := by
  cases op with
  | insertTop t uid =>
    rw [applyOp, addField, forestInv_append, Bool.and_eq_true]
    exact ⟨h, by simp [forestInv.eq_2, forestInv.eq_1, fieldInv_createSchemaField]⟩
  | insertUnder p t uid =>
    rw [applyOp, addField]
    exact updateNestedField_inv s p _
      (addFieldUpdater_inv _ (fieldInv_createSchemaField uid t)) h
  | rename p nm =>
    rw [applyOp]
    exact updateNestedField_inv s p _ (setDisplayNameUpdater_inv nm) h
  | toggleExpanded p b =>
    rw [applyOp]
    exact updateNestedField_inv s p _ (setExpandedUpdater_inv b) h
  | selectTypeToAdd p t =>
    rw [applyOp]
    exact updateNestedField_inv s p _ (setSelectedTypeUpdater_inv t) h
  | removeAt p =>
    rw [applyOp]
    match p with
    | [] => rw [removeField.eq_1]; exact h
    | [x] => rw [removeField.eq_2]; exact forestInv_filter s _ h
    | x :: y :: rest =>
      rw [removeField.eq_3]
      exact updateNestedField_inv s _ _ (removeFieldUpdater_inv _) h
  | setRule p nm en v =>
    rw [applyOp, updateValidationRule]
    exact updateNestedField_inv s p _ (updateValidationRuleUpdater_inv nm en v) h
  | retype p t =>
    rw [applyOp, changeType]
    exact updateNestedField_inv s p _ (fun f _ => changeTypeUpdater_inv t f) h
  | setItemSchema p t uid =>
    rw [applyOp, setArrayItemSchema]
    exact updateNestedField_inv s p _
      (setArrayItemSchemaUpdater_inv _ (fieldInv_createSchemaField uid t)) h

/-- The invariant holds of every forest reachable from the given start. -/
theorem forestInv_foldl (ops : List EngineOp) (s : List SchemaField)
    (h : forestInv s = true) : forestInv (ops.foldl applyOp s) = true := by
  induction ops generalizing s with
  | nil => exact h
  | cons op rest ih => exact ih (applyOp s op) (forestInv_applyOp s op h)

/-- The invariant holds of every reachable forest. -/
theorem forestInv_run (ops : List EngineOp) : forestInv (run ops) = true :=
  forestInv_foldl ops [] rfl

/-- Rule completeness of a tree transfers to every node occurring in it. -/
theorem fieldInv_occursIn (g f : SchemaField) (ho : OccursIn f g) :
    fieldInv g = true → ruleNamesOk f = true := by
  induction ho with
  | self =>
    intro h
    cases f with
    | mk i dn dt vr props item sel exp =>
      rw [fieldInv.eq_1, Bool.and_eq_true, Bool.and_eq_true] at h
      exact h.1.1
  | inProps g0 h2 ps hp hg ho0 ih =>
    intro h
    cases h2 with
    | mk i dn dt vr props item sel exp =>
      rw [SchemaField.properties] at hp
      subst hp
      rw [fieldInv.eq_1, Bool.and_eq_true, Bool.and_eq_true, optForestInv] at h
      exact ih (forestInv_mem ps g0 h.1.2 hg)
  | inItem s0 h2 hi ho0 ih =>
    intro h
    cases h2 with
    | mk i dn dt vr props item sel exp =>
      rw [SchemaField.item_schema] at hi
      subst hi
      rw [fieldInv.eq_1, Bool.and_eq_true, Bool.and_eq_true, optFieldInv] at h
      exact ih h.2

/-- JS object assignment adds exactly the assigned key to the key set. -/
theorem objHasKey_jsObjSet (kvs : List (String × Json)) (k : String) (v : Json)
    (key : String) :
    objHasKey (jsObjSet kvs k v) key = (objHasKey kvs key || k == key) := by
  induction kvs with
  | nil => simp [jsObjSet, objHasKey]
  | cons kv rest ih =>
    match kv with
    | (k0, w) =>
      rw [jsObjSet]
      by_cases hk : k0 = k
      · subst hk
        by_cases hkey : k0 = key <;> simp [objHasKey, hkey]
      · rw [if_neg hk]
        simp only [objHasKey, List.any_cons] at ih ⊢
        rw [ih, Bool.or_assoc]

/-- Key set of the rule-export fold: the initial keys plus the folded rule
names. -/
theorem objHasKey_ruleFold (rs : List ValidationRule) (acc : List (String × Json))
    (key : String) :
    objHasKey (rs.foldl (fun a rule => jsObjSet a rule.name (ruleValueJson rule.value)) acc) key
      = (objHasKey acc key || rs.any (fun r => r.name == key)) := by
  induction rs generalizing acc with
  | nil => simp
  | cons r rest ih =>
    rw [List.foldl_cons, List.any_cons, ih, objHasKey_jsObjSet, Bool.or_assoc]

/-- A name is a key of the exported rules mapping precisely when some rule
of that name is enabled. -/
theorem objHasKey_exportRules (vr : List ValidationRule) (key : String) :
    objHasKey (exportRules vr) key = true
      ↔ ∃ r ∈ vr, r.enabled = true ∧ r.name = key := by
  rw [exportRules, objHasKey_ruleFold]
  simp only [objHasKey, List.any_nil, Bool.false_or, List.any_filter, List.any_eq_true,
    Bool.and_eq_true, beq_iff_eq]

/-- The export of a forest is the element-wise export of its fields. -/
theorem cleanSchemaForExport_eq_map (fs : List SchemaField) :
    cleanSchemaForExport fs = fs.map cleanOne := by
  induction fs with
  | nil => rw [cleanSchemaForExport.eq_1]; rfl
  | cons f rest ih => rw [cleanSchemaForExport.eq_2, ih, List.map_cons]

/-- The exported node of a field holds its display name under
`display_name`. -/
theorem cleanOne_lookup_display_name (f : SchemaField) :
    jsonObjLookup (cleanOne f) "display_name" = some (Json.str f.display_name) := by
  cases f with
  | mk i dn dt vr props item sel exp =>
    rw [cleanOne.eq_1]
    simp [jsonObjLookup, objLookup, SchemaField.display_name]

/-- The exported node of a field holds its data type's name under
`data_type`. -/
theorem cleanOne_lookup_data_type (f : SchemaField) :
    jsonObjLookup (cleanOne f) "data_type"
      = some (Json.str (dataTypeName f.data_type)) := by
  cases f with
  | mk i dn dt vr props item sel exp =>
    rw [cleanOne.eq_1]
    simp [jsonObjLookup, objLookup, SchemaField.data_type]

/-- The exported node of a field holds its enabled-rules mapping under
`validation_rules`. -/
theorem cleanOne_lookup_validation_rules (f : SchemaField) :
    jsonObjLookup (cleanOne f) "validation_rules"
      = some (Json.obj (exportRules f.validation_rules)) := by
  cases f with
  | mk i dn dt vr props item sel exp =>
    rw [cleanOne.eq_1]
    simp [jsonObjLookup, objLookup, SchemaField.validation_rules]

/-- The exported node of a field has no key besides `display_name`,
`data_type`, `validation_rules`, `properties` and `item_schema`. -/
theorem cleanOne_lookup_other (f : SchemaField) (key : String)
    (h1 : key ≠ "display_name") (h2 : key ≠ "data_type")
    (h3 : key ≠ "validation_rules") (h4 : key ≠ "properties")
    (h5 : key ≠ "item_schema") :
    jsonObjLookup (cleanOne f) key = none := by
  cases f with
  | mk i dn dt vr props item sel exp =>
    rw [cleanOne.eq_1]
    cases dt <;> cases props <;> cases item <;>
      simp [jsonObjLookup, objLookup, cleanPropsEntries, cleanItemEntries,
        Ne.symm h1, Ne.symm h2, Ne.symm h3, Ne.symm h4, Ne.symm h5]

mutual
/-- Every exported field node passes the shape check: only the five export
keys occur, recursively. -/
theorem exportNodeOk_cleanOne (f : SchemaField) : exportNodeOk (cleanOne f) = true := by
  match f with
  | .mk i dn dt vr props item sel exp =>
    rw [cleanOne.eq_1, exportNodeOk]
    rw [List.cons_append, List.cons_append, List.cons_append, List.nil_append]
    rw [exportEntriesOk, exportEntriesOk, exportEntriesOk]
    match dt, props, item with
    | DataType.object, some ps, item =>
      simp only [if_pos rfl, cleanPropsEntries, exportEntriesOk, exportArrOk]
      simp [exportListOk_clean ps]
    | DataType.object, none, item =>
      simp [cleanPropsEntries, exportEntriesOk]
    | DataType.array, props, some s =>
      simp only [cleanItemEntries, exportEntriesOk]
      simp [exportNodeOk_cleanOne s]
    | DataType.array, props, none =>
      simp [cleanItemEntries, exportEntriesOk]
    | DataType.string, props, item => simp [exportEntriesOk]
    | DataType.number, props, item => simp [exportEntriesOk]
    | DataType.boolean, props, item => simp [exportEntriesOk]

/-- Every exported forest passes the shape check, element-wise. -/
theorem exportListOk_clean (fs : List SchemaField) :
    exportListOk (cleanSchemaForExport fs) = true := by
  match fs with
  | [] => rw [cleanSchemaForExport.eq_1, exportListOk]
  | f :: rest =>
    rw [cleanSchemaForExport.eq_2, exportListOk]
    rw [exportNodeOk_cleanOne f, exportListOk_clean rest]
    rfl
end

/-- Appending forests concatenates their id lists. -/
theorem forestIds_append (a b : List SchemaField) :
    forestIds (a ++ b) = forestIds a ++ forestIds b := by
  induction a with
  | nil => rw [forestIds.eq_1]; rfl
  | cons f fs ih =>
    rw [List.cons_append, forestIds.eq_2, forestIds.eq_2, ih, List.append_assoc]

/-- A freshly created field contributes exactly its own id. -/
theorem fieldIds_createSchemaField (uid : String) (t : DataType) :
    fieldIds (createSchemaField uid t) = [uid] := by
  cases t <;> rfl

/-- C1: for every field, the export emits its display name under
`display_name`, its data type under `data_type`, and under
`validation_rules` a mapping whose keys are exactly the names of the rules
with `enabled = true` (disabled rules are absent, not emitted as `false`);
the UI-only keys `id`, `isExpanded` and `selectedTypeToAdd` are absent from
the node, and the export of any forest is the element-wise export whose
nodes use only the five export keys at every depth. -/
theorem c1_export_contract :
    (∀ f : SchemaField,
      jsonObjLookup (cleanOne f) "display_name" = some (Json.str f.display_name)
      ∧ jsonObjLookup (cleanOne f) "data_type"
          = some (Json.str (dataTypeName f.data_type))
      ∧ jsonObjLookup (cleanOne f) "validation_rules"
          = some (Json.obj (exportRules f.validation_rules))
      ∧ (∀ nm : String, objHasKey (exportRules f.validation_rules) nm = true
            ↔ ∃ r ∈ f.validation_rules, r.enabled = true ∧ r.name = nm)
      ∧ jsonObjLookup (cleanOne f) "id" = none
      ∧ jsonObjLookup (cleanOne f) "isExpanded" = none
      ∧ jsonObjLookup (cleanOne f) "selectedTypeToAdd" = none)
    ∧ (∀ fields : List SchemaField,
        cleanSchemaForExport fields = fields.map cleanOne
        ∧ exportListOk (cleanSchemaForExport fields) = true) :=
  ⟨fun f =>
    ⟨cleanOne_lookup_display_name f, cleanOne_lookup_data_type f,
     cleanOne_lookup_validation_rules f,
     fun nm => objHasKey_exportRules f.validation_rules nm,
     cleanOne_lookup_other f "id" (by decide) (by decide) (by decide) (by decide) (by decide),
     cleanOne_lookup_other f "isExpanded" (by decide) (by decide) (by decide) (by decide)
       (by decide),
     cleanOne_lookup_other f "selectedTypeToAdd" (by decide) (by decide) (by decide)
       (by decide) (by decide)⟩,
   fun fields => ⟨cleanSchemaForExport_eq_map fields, exportListOk_clean fields⟩⟩

/-- Witness for C1 at the Email example field. -/
theorem c1_witness :
    jsonObjLookup (cleanOne emailField) "display_name" = some (Json.str "Email")
    ∧ (objHasKey (exportRules emailField.validation_rules) "required" = true
        ↔ ∃ r ∈ emailField.validation_rules, r.enabled = true ∧ r.name = "required")
    ∧ jsonObjLookup (cleanOne emailField) "id" = none :=
  ⟨(c1_export_contract.1 emailField).1,
   (c1_export_contract.1 emailField).2.2.2.1 "required",
   (c1_export_contract.1 emailField).2.2.2.2.1⟩

/-- C2 counterexample: inserting under a one-segment parent path that
resolves to an array field with no item schema leaves the forest unchanged
— no item schema is installed and the new field appears nowhere. -/
theorem c2_counterexample :
    (createSchemaField "aaaa" DataType.array).data_type = DataType.array
    ∧ (createSchemaField "aaaa" DataType.array).item_schema = none
    ∧ addField [createSchemaField "aaaa" DataType.array] (some ["aaaa"])
        (createSchemaField "bbbb" DataType.string)
        = [createSchemaField "aaaa" DataType.array]
    ∧ forestContainsId
        (addField [createSchemaField "aaaa" DataType.array] (some ["aaaa"])
          (createSchemaField "bbbb" DataType.string)) "bbbb" = false :=
  ⟨rfl, rfl, rfl, rfl⟩

/-- C2 (amended): `addField` with a parent path appends the new field to
the parent's properties when the parent's data type is `object`; for every
other parent type — array included, whether or not it has an item schema —
the parent is returned unchanged.  On a one-segment parent path the whole
forest transform is the per-field map of that updater. -/
theorem c2_insert_semantics (nf : SchemaField) (i dn : String) (dt : DataType)
    (vr : List ValidationRule) (props : Option (List SchemaField))
    (item : Option SchemaField) (sel : Option DataType) (exp : Option Bool) :
    (dt = DataType.object →
      addFieldUpdater nf (.mk i dn dt vr props item sel exp)
        = .mk i dn dt vr (some (props.getD [] ++ [nf])) item sel exp)
    ∧ (dt ≠ DataType.object →
      addFieldUpdater nf (.mk i dn dt vr props item sel exp)
        = .mk i dn dt vr props item sel exp)
    ∧ ∀ (fields : List SchemaField) (pid : String),
        addField fields (some [pid]) nf
          = fields.map (fun f => if f.id = pid then addFieldUpdater nf f else f) := by
  refine ⟨fun h => ?_, fun h => ?_, fun fields pid => ?_⟩
  · rw [addFieldUpdater, if_pos h]
  · rw [addFieldUpdater, if_neg h]
  · rw [addField, updateNestedField_single_map]

/-- Witness for C2 at an object parent and at an array parent. -/
theorem c2_witness :
    addFieldUpdater exQ (.mk "par" "" DataType.object [] (some []) none none none)
      = .mk "par" "" DataType.object [] (some ([] ++ [exQ])) none none none
    ∧ addFieldUpdater exQ exA = exA :=
  ⟨(c2_insert_semantics exQ "par" "" DataType.object [] (some []) none none none).1 rfl,
   (c2_insert_semantics exQ "a" "" DataType.array (defaultValidationRules DataType.array)
      none (some exO) (some DataType.string) (some true)).2.1 (by decide)⟩

/-- C3 counterexample: enabling the boolean-kind rule `required` on a field
whose stored value is absent sets the value to `true`, not `false` as the
claim states. -/
theorem c3_counterexample :
    ((toggleRule switchProbeField "required" true).validation_rules.map (fun r => r.value))
      = [some (RuleValue.bool true)]
    ∧ some (RuleValue.bool true) ≠ some (RuleValue.bool false) :=
  ⟨rfl, by decide⟩

/-- C3 (amended): enabling a rule whose prior value is absent assigns the
kind-determined default fixed by the catalog entry — `true` (not `false`)
for boolean-kind rules, `0` for number-kind rules, and the empty string for
text-kind rules. -/
theorem c3_enable_defaults (f : SchemaField) (ruleName : String)
    (rc : ValidationRuleConfig) (r : ValidationRule)
    (hrc : (VALIDATION_RULES_BY_TYPE f.data_type).find? (fun c => c.name == ruleName)
        = some rc)
    (hr : f.validation_rules.find? (fun r0 => r0.name == ruleName) = some r)
    (hv : r.value = none) :
    ∀ r0 ∈ (toggleRule f ruleName true).validation_rules, r0.name = ruleName →
      r0.value = some (enableDefault rc.type) := by
  intro r0 hr0 hname
  have ht : toggleRule f ruleName true
      = updateValidationRuleUpdater ruleName true
          (switchDefaultValue rc.type true r.value) f := by
    rw [toggleRule.eq_def, hrc, hr]
  rw [ht] at hr0
  cases f with
  | mk i dn dt vr props item sel exp =>
    rw [updateValidationRuleUpdater] at hr0
    simp only [SchemaField.validation_rules] at hr0
    obtain ⟨a, ha, hae⟩ := List.mem_map.mp hr0
    by_cases han : a.name = ruleName
    · rw [if_pos han] at hae
      rw [← hae]
      show switchDefaultValue rc.type true r.value = some (enableDefault rc.type)
      rw [hv]
      cases rc.type <;> rfl
    · rw [if_neg han] at hae
      rw [← hae] at hname
      exact absurd hname han

/-- Witness for C3 at the probe field's `required` rule. -/
theorem c3_witness :
    (⟨"required", true, some (RuleValue.bool true)⟩ : ValidationRule).value
      = some (enableDefault RuleKind.boolean) :=
  c3_enable_defaults switchProbeField "required"
    ⟨"required", RuleKind.boolean, "Required", none⟩
    ⟨"required", false, none⟩ rfl rfl rfl
    ⟨"required", true, some (RuleValue.bool true)⟩ (by decide) rfl

/-- C4: in every forest reachable from the empty forest by engine
operations, every field (at any depth, item-schema subtrees included) has
rule names exactly equal to the catalog's names for its current data type.
-/
theorem c4_rule_completeness (ops : List EngineOp) (f : SchemaField)
    (h : MemForest f (run ops)) :
    f.validation_rules.map (fun r => r.name)
      = (VALIDATION_RULES_BY_TYPE f.data_type).map (fun rc => rc.name) := by
  obtain ⟨g, hg, ho⟩ := h
  have hru := fieldInv_occursIn g f ho (forestInv_mem (run ops) g (forestInv_run ops) hg)
  rw [ruleNamesOk] at hru
  exact eq_of_beq hru

/-- Witness for C4: one inserted string field in a reachable forest. -/
theorem c4_witness :
    MemForest (createSchemaField "u1" DataType.string)
        (run [EngineOp.insertTop DataType.string "u1"])
    ∧ (createSchemaField "u1" DataType.string).validation_rules.map (fun r => r.name)
        = (VALIDATION_RULES_BY_TYPE
            (createSchemaField "u1" DataType.string).data_type).map (fun rc => rc.name) := by
  have hm : MemForest (createSchemaField "u1" DataType.string)
      (run [EngineOp.insertTop DataType.string "u1"]) := by
    refine ⟨createSchemaField "u1" DataType.string, ?_, OccursIn.self _⟩
    show createSchemaField "u1" DataType.string ∈ [createSchemaField "u1" DataType.string]
    exact List.mem_singleton.mpr rfl
  exact ⟨hm, c4_rule_completeness _ _ hm⟩

/-- C5 counterexample: a removal path that reaches two levels below an
array's item schema removes nothing at all — the forest is returned
unchanged and the targeted field `q` survives — contrary to the claim that
the target is filtered out of its parent's properties. -/
theorem c5_counterexample :
    removeField exForest ["a", "item_schema", "p", "q"] = exForest
    ∧ forestContainsId exForest "q" = true
    ∧ forestContainsId (removeField exForest ["a", "item_schema", "p", "q"]) "q" = true :=
  ⟨rfl, rfl, rfl⟩

/-- C5 (amended): a one-segment path filters the id out of the top-level
list; the parent updater filters the last segment out of the parent's
properties when the parent has some, and installs an empty `properties`
list when the parent has none; and on a three-segment path whose head
matches only properties-less fields, the filter is applied to the item
schema root's own properties, regardless of the middle segment — so only
direct children of the item-schema root can be removed this way. -/
theorem c5_remove_semantics (fields : List SchemaField) :
    (∀ x : String, removeField fields [x] = fields.filter (fun f => !(f.id == x)))
    ∧ (∀ (fid i dn : String) (dt : DataType) (vr : List ValidationRule)
         (ps : List SchemaField) (item : Option SchemaField) (sel : Option DataType)
         (exp : Option Bool),
        removeFieldUpdater fid (.mk i dn dt vr (some ps) item sel exp)
          = .mk i dn dt vr (some (ps.filter (fun prop => !(prop.id == fid)))) item sel exp)
    ∧ (∀ (fid i dn : String) (dt : DataType) (vr : List ValidationRule)
         (item : Option SchemaField) (sel : Option DataType) (exp : Option Bool),
        removeFieldUpdater fid (.mk i dn dt vr none item sel exp)
          = .mk i dn dt vr (some []) item sel exp)
    ∧ (∀ (aid sub cid : String),
        (∀ f ∈ fields, f.id = aid → f.properties = none) →
        removeField fields [aid, sub, cid]
          = fields.map (fun f =>
              if f.id = aid then applyToItem (removeFieldUpdater cid) f else f)) := by
  refine ⟨fun x => rfl, fun fid i dn dt vr ps item sel exp => rfl,
    fun fid i dn dt vr item sel exp => rfl, fun aid sub cid h => ?_⟩
  have e1 : removeField fields [aid, sub, cid]
      = updateNestedField fields [aid, sub] (removeFieldUpdater cid) := rfl
  rw [e1, updateNestedField_deep_noprops fields aid sub [] (removeFieldUpdater cid) h]

/-- Witness for C5: removing a direct child of the item-schema root. -/
theorem c5_witness :
    removeField exForest ["a", "item_schema", "p"]
      = exForest.map (fun f =>
          if f.id = "a" then applyToItem (removeFieldUpdater "p") f else f)
    ∧ removeField exForest ["a"] = exForest.filter (fun f => !(f.id == "a")) := by
  have h : ∀ f ∈ exForest, f.id = "a" → f.properties = none := by
    intro f hf _
    simp only [exForest, List.mem_singleton] at hf
    subst hf
    rfl
  exact ⟨(c5_remove_semantics exForest).2.2.2 "a" "item_schema" "p" h,
    (c5_remove_semantics exForest).1 "a"⟩

/-- C6: changing a field's type to T resets its data type to T, its
properties to T's default (`[]` for object, absent otherwise), removes any
item schema, regenerates the validation rules from the catalog for T, and
leaves zero enabled rules. -/
theorem c6_change_type_reset (i dn : String) (dtOld : DataType)
    (vr : List ValidationRule) (props : Option (List SchemaField))
    (item : Option SchemaField) (sel : Option DataType) (exp : Option Bool)
    (T : DataType) (hne : T ≠ dtOld) :
    (changeTypeUpdater T (.mk i dn dtOld vr props item sel exp)).data_type = T
    ∧ (changeTypeUpdater T (.mk i dn dtOld vr props item sel exp)).properties
        = (if T = DataType.object then some [] else none)
    ∧ (changeTypeUpdater T (.mk i dn dtOld vr props item sel exp)).item_schema = none
    ∧ (changeTypeUpdater T (.mk i dn dtOld vr props item sel exp)).validation_rules
        = (VALIDATION_RULES_BY_TYPE T).map
            (fun rule => ⟨rule.name, false, some (defaultRuleValue rule.type)⟩)
    ∧ ((changeTypeUpdater T (.mk i dn dtOld vr props item sel exp)).validation_rules.filter
        (fun r => r.enabled)) = [] := by
  refine ⟨rfl, rfl, rfl, rfl, ?_⟩
  show (defaultValidationRules T).filter (fun r => r.enabled) = []
  cases T <;> rfl

/-- Witness for C6: retyping a string field to array. -/
theorem c6_witness :
    (changeTypeUpdater DataType.array
        (.mk "x" "" DataType.string [] none none none (some true))).data_type = DataType.array
    ∧ (changeTypeUpdater DataType.array
        (.mk "x" "" DataType.string [] none none none (some true))).properties
        = (if DataType.array = DataType.object then some [] else none)
    ∧ (changeTypeUpdater DataType.array
        (.mk "x" "" DataType.string [] none none none (some true))).item_schema = none
    ∧ (changeTypeUpdater DataType.array
        (.mk "x" "" DataType.string [] none none none (some true))).validation_rules
        = (VALIDATION_RULES_BY_TYPE DataType.array).map
            (fun rule => ⟨rule.name, false, some (defaultRuleValue rule.type)⟩)
    ∧ ((changeTypeUpdater DataType.array
        (.mk "x" "" DataType.string [] none none none (some true))).validation_rules.filter
        (fun r => r.enabled)) = [] :=
  c6_change_type_reset "x" "" DataType.string [] none none none (some true)
    DataType.array (by decide)

/-- C7 counterexample: the path `arr.zzz` matches no field at its second
level (`zzz` is nobody's id), yet inserting under it changes the forest —
the new field lands in the item schema's properties — so unresolved paths
are not universally no-ops. -/
theorem c7_counterexample :
    forestContainsId [wormArray] "zzz" = false
    ∧ forestContainsId [wormArray] "newf" = false
    ∧ forestContainsId
        (addField [wormArray] (some ["arr", "zzz"]) (createSchemaField "newf" DataType.string))
        "newf" = true :=
  ⟨rfl, rfl, rfl⟩

/-- C7 (amended): operations are silent no-ops when the path head matches
no field, and inserts into non-object parents leave the parent unchanged;
but when a matched field has no `properties` and has an `item_schema`, the
remaining segments are ignored and the operation applies to the item schema
even though those segments resolve to nothing. -/
theorem c7_noop_semantics (fields : List SchemaField) :
    (∀ (x : String) (rest : List String) (u : SchemaField → SchemaField),
       (∀ f ∈ fields, ¬ f.id = x) → updateNestedField fields (x :: rest) u = fields)
    ∧ (∀ (nf f : SchemaField), f.data_type ≠ DataType.object → addFieldUpdater nf f = f)
    ∧ (∀ x : String, (∀ f ∈ fields, ¬ f.id = x) → removeField fields [x] = fields) := by
  refine ⟨fun x rest u h => updateNestedField_nomatch fields x rest u h,
    fun nf f h => ?_, fun x h => ?_⟩
  · cases f with
    | mk i dn dt vr props item sel exp =>
      rw [addFieldUpdater, if_neg (by simpa [SchemaField.data_type] using h)]
  · show fields.filter (fun f => !(f.id == x)) = fields
    refine List.filter_eq_self.mpr (fun f hf => ?_)
    simpa using h f hf

/-- Witness for C7: a miss path and an array-parent insert on the worm
forest. -/
theorem c7_witness :
    updateNestedField [wormArray] ["nope", "x"] (setDisplayNameUpdater "Z") = [wormArray]
    ∧ addFieldUpdater (createSchemaField "n2" DataType.string) wormArray = wormArray := by
  have h : ∀ f ∈ [wormArray], ¬ f.id = "nope" := by
    intro f hf
    rw [List.mem_singleton] at hf
    subst hf
    decide
  exact ⟨(c7_noop_semantics [wormArray]).1 "nope" ["x"] (setDisplayNameUpdater "Z") h,
    (c7_noop_semantics [wormArray]).2.1 (createSchemaField "n2" DataType.string) wormArray
      (by decide)⟩

/-- C8 counterexample: the UUID generator is a pure function of its
entropy stream and never consults the forest; under the all-zero stream it
produces exactly the id already present in `collidingField`'s forest, so
the inserted field's id is not distinct from every existing id. -/
theorem c8_counterexample :
    generateUUID (fun _ => 0) = "00000000-0000-4000-8000-000000000000"
    ∧ (createSchemaField (generateUUID (fun _ => 0)) DataType.string).id
        ∈ forestIds [collidingField] :=
  ⟨rfl, by decide⟩

/-- C8 (amended): insertion assigns the new field exactly the generated
uid without checking existing ids; whenever that uid does not already occur
in the forest, the new field's id is distinct from every existing id and
the id list extends by exactly the new uid. -/
theorem c8_fresh_id (forest : List SchemaField) (uid : String) (t : DataType)
    (h : uid ∉ forestIds forest) :
    (createSchemaField uid t).id = uid
    ∧ forestIds (addField forest none (createSchemaField uid t))
        = forestIds forest ++ [uid]
    ∧ ∀ j ∈ forestIds forest, (createSchemaField uid t).id ≠ j := by
  refine ⟨rfl, ?_, fun j hj => ?_⟩
  · rw [addField, forestIds_append, forestIds.eq_2, forestIds.eq_1,
      fieldIds_createSchemaField, List.append_nil]
  · show uid ≠ j
    exact fun he => h (he ▸ hj)

/-- Witness for C8: a fresh uid against the colliding-field forest. -/
theorem c8_witness :
    "fresh" ∉ forestIds [collidingField]
    ∧ (createSchemaField "fresh" DataType.object).id = "fresh"
    ∧ forestIds (addField [collidingField] none (createSchemaField "fresh" DataType.object))
        = forestIds [collidingField] ++ ["fresh"] := by
  have h : "fresh" ∉ forestIds [collidingField] := by decide
  obtain ⟨h1, h2, h3⟩ := c8_fresh_id [collidingField] "fresh" DataType.object h
  exact ⟨h, h1, h2⟩

/-- C9: on the two-segment path `a.item_schema` addressed at a top-level
array `a` with an item schema and no `properties`, `removeField` leaves the
item schema untouched and instead installs `properties: []` on the array
field. -/
theorem c9_remove_item_schema_path (fields : List SchemaField) (aid : String)
    (h : ∀ f ∈ fields, f.id = aid →
      f.data_type = DataType.array ∧ f.properties = none ∧ f.item_schema.isSome = true) :
    removeField fields [aid, "item_schema"]
      = fields.map (fun f => if f.id = aid then f.withProperties (some []) else f)
    ∧ ∀ f : SchemaField, (f.withProperties (some [])).item_schema = f.item_schema := by
  constructor
  · have e1 : removeField fields [aid, "item_schema"]
        = updateNestedField fields [aid] (removeFieldUpdater "item_schema") := rfl
    rw [e1, updateNestedField_single_map]
    refine List.map_congr_left (fun f hf => ?_)
    by_cases hid : f.id = aid
    · rw [if_pos hid, if_pos hid]
      obtain ⟨_, hp, _⟩ := h f hf hid
      cases f with
      | mk i dn dt vr props item sel exp =>
        rw [SchemaField.properties] at hp
        subst hp
        rfl
    · rw [if_neg hid, if_neg hid]
  · intro f
    cases f
    rfl

/-- Witness for C9 at the example array `a`. -/
theorem c9_witness :
    removeField exForest ["a", "item_schema"]
      = exForest.map (fun f => if f.id = "a" then f.withProperties (some []) else f)
    ∧ (exA.withProperties (some [])).item_schema = some exO := by
  have h : ∀ f ∈ exForest, f.id = "a" →
      f.data_type = DataType.array ∧ f.properties = none ∧ f.item_schema.isSome = true := by
    intro f hf _
    simp only [exForest, List.mem_singleton] at hf
    subst hf
    exact ⟨rfl, rfl, rfl⟩
  exact ⟨(c9_remove_item_schema_path exForest "a" h).1, rfl⟩

/-- C10: on any path of two or more segments whose head matches only
fields with no `properties`, `updateNestedField` applies the updater
directly to the matched field's `item_schema` and ignores every remaining
segment; in particular any two such paths with the same head produce
identical results. -/
theorem c10_item_schema_shortcut (fields : List SchemaField) (x : String)
    (u : SchemaField → SchemaField)
    (h : ∀ f ∈ fields, f.id = x → f.properties = none) :
    (∀ (seg : String) (rest : List String),
       updateNestedField fields (x :: seg :: rest) u
         = fields.map (fun f => if f.id = x then applyToItem u f else f))
    ∧ (∀ (seg seg2 : String) (rest rest2 : List String),
       updateNestedField fields (x :: seg :: rest) u
         = updateNestedField fields (x :: seg2 :: rest2) u) := by
  refine ⟨fun seg rest => updateNestedField_deep_noprops fields x seg rest u h,
    fun seg seg2 rest rest2 => ?_⟩
  rw [updateNestedField_deep_noprops fields x seg rest u h,
    updateNestedField_deep_noprops fields x seg2 rest2 u h]

/-- Witness for C10: renaming through `a.item_schema` and through a junk
suffix gives the same forest. -/
theorem c10_witness :
    updateNestedField exForest ["a", "item_schema"] (setDisplayNameUpdater "Z")
      = exForest.map (fun f =>
          if f.id = "a" then applyToItem (setDisplayNameUpdater "Z") f else f)
    ∧ updateNestedField exForest ["a", "item_schema"] (setDisplayNameUpdater "Z")
      = updateNestedField exForest ["a", "junk", "deeper"] (setDisplayNameUpdater "Z") := by
  have h : ∀ f ∈ exForest, f.id = "a" → f.properties = none := by
    intro f hf _
    simp only [exForest, List.mem_singleton] at hf
    subst hf
    rfl
  exact ⟨(c10_item_schema_shortcut exForest "a" (setDisplayNameUpdater "Z") h).1 "item_schema" [],
    (c10_item_schema_shortcut exForest "a" (setDisplayNameUpdater "Z") h).2
      "item_schema" "junk" [] ["deeper"]⟩

end SchemaBuilder
